import Mathlib

/-!
Verification of the isomorphic-sqlite session queue and nested-transaction
state machine.  The definitions below are shallow embeddings of the
TypeScript sources:

* `TxState`, `execStmt`, `openFrame`, `transactionAttempt` embed the
  transaction manager of `src/abstract/base-database.ts` (`transaction`,
  lines 146-193): depth capture, `BEGIN`/`SAVEPOINT` opening, the
  success path (`COMMIT` / `RELEASE SAVEPOINT`) and the catch path
  (`ROLLBACK` / `ROLLBACK TO SAVEPOINT`, depth reset, re-throw).
* `Prog` / `runProg` / `runProgSteps` describe the bodies a caller can run
  inside a transaction (engine statements, thrown values, sequencing and
  nested `transaction` calls) and the intermediate states a run goes
  through.
* `Queue.ChainState` / `Queue.Step` embed the promise chain of
  `Database.#enqueue` in `src/database.ts` (lines 29-48): `results k`
  is the settlement state of the `resultPromise` of submission `k`,
  `tails k` the settlement state of its `queueUpdatePromise`, `trace`
  the order in which operations actually reached the engine, and
  `absorbed k` records that the `queueUpdatePromise.catch(() => \x7b\x7d)`
  reaction has consumed a rejection.  The step relation is a
  nondeterministic over-approximation of the JavaScript microtask
  scheduler: any settled-gate reaction may fire at any time.
* `QOp`, `DbSession`, `enqueueOp`, `dbTransactionInvoke`, `runQueue`
  embed the structural relationship between `Database.transaction`
  (`src/database.ts` lines 82-102) and the session queue: one
  invocation of the transactional function enqueues exactly one
  operation, inside which the transaction manager talks to the engine
  adapter directly.
* `BaseDb` embeds the close/raw behaviour of `BaseDatabase`
  (`close`, lines 118-132; `raw`, line 196) over a driver connection
  that rejects statements once the underlying connection is closed.
* `idatabaseSurface` / `itransactionSurface` embed the `IDatabase` and
  `ITransaction` (`Omit`) interfaces of `src/typings.ts`.
-/

namespace IsoSqlite

/-- Transaction modes of `createTransactional` in `base-database.ts`:
the plain call uses the empty mode string. -/
inductive TxMode where
  | plain
  | deferredM
  | immediateM
  | exclusiveM
deriving DecidableEq, Repr

/-- The mode string interpolated into the `BEGIN` statement. -/
def modeStr : TxMode → String
  | TxMode.plain => ""
  | TxMode.deferredM => "DEFERRED"
  | TxMode.immediateM => "IMMEDIATE"
  | TxMode.exclusiveM => "EXCLUSIVE"

/-- Statements issued by the transaction manager, plus uninterpreted data
statements issued by transaction bodies. -/
inductive Stmt where
  | beginTx (mode : TxMode)
  | savepoint (d : Int)
  | commit
  | release (d : Int)
  | rollback
  | rollbackTo (d : Int)
  | data (sql : String)
deriving DecidableEq, Repr

/-- Savepoint name derivation of `base-database.ts` line 151:
the template literal `isomorphic_sqlite_<depth>` over the captured depth. -/
def savepointName (d : Int) : String :=
  "isomorphic_sqlite_" ++ toString d

/-- The SQL text each statement constructor renders to, exactly as the
source interpolates it (`BEGIN ${mode}` keeps its space for the plain
call). -/
def Stmt.toSQL : Stmt → String
  | Stmt.beginTx m => "BEGIN " ++ modeStr m
  | Stmt.savepoint d => "SAVEPOINT " ++ savepointName d
  | Stmt.commit => "COMMIT"
  | Stmt.release d => "RELEASE SAVEPOINT " ++ savepointName d
  | Stmt.rollback => "ROLLBACK"
  | Stmt.rollbackTo d => "ROLLBACK TO SAVEPOINT " ++ savepointName d
  | Stmt.data sql => sql

/-- Control statements are everything the transaction manager issues
itself; `data` statements come from the caller. -/
def Stmt.isControl : Stmt → Bool
  | Stmt.data _ => false
  | _ => true

/-- Per-session transaction state: the private `#transactionDepth`
field (a JavaScript number, hence `Int` so that underflow would be
observable) and the sequence of statements the engine has received. -/
structure TxState where
  depth : Int
  trace : List Stmt
deriving DecidableEq, Repr

/-- Engine view of `this.exec(sql)`: the statement is appended to
the engine's statement stream. -/
def execStmt (st : Stmt) (s : TxState) : TxState :=
  { s with trace := s.trace ++ [st] }

/-- The opening phase of one transaction attempt
(`base-database.ts` lines 153-160): capture the depth, issue
`BEGIN <mode>` at depth 0 or `SAVEPOINT <name(depth)>` otherwise, then
increment `#transactionDepth`. -/
def openFrame (mode : TxMode) (s : TxState) : TxState :=
  let depth := s.depth
  let s1 := if depth = 0 then execStmt (Stmt.beginTx mode) s
            else execStmt (Stmt.savepoint depth) s
  { s1 with depth := s1.depth + 1 }

/-- The statement the opening phase issues. -/
def openStmt (mode : TxMode) (d : Int) : Stmt :=
  if d = 0 then Stmt.beginTx mode else Stmt.savepoint d

/-- One transaction attempt (the async
function returned by `createTransactional`, `base-database.ts` lines 149-189).  `body` is the embedded
`fn`: an arbitrary state transformer that either succeeds (`none`) or
throws a value `v` (`some v`).  On success the depth is decremented and
`COMMIT` / `RELEASE SAVEPOINT` issued; on failure, if the current depth
is still positive, `ROLLBACK` (captured depth 0) or
`ROLLBACK TO SAVEPOINT` (captured depth > 0) is issued, the depth is
reset to the captured depth, and the thrown value is re-raised
unchanged.  Success values of `fn` are elided: only the control flow
and the thrown value matter to the claims. -/
def transactionAttempt {E : Type} (mode : TxMode)
    (body : TxState → TxState × Option E) (s : TxState) :
    TxState × Option E :=
  let depth := s.depth
  match body (openFrame mode s) with
  | (s3, none) =>
      let s4 := { s3 with depth := s3.depth - 1 }
      if depth = 0 then (execStmt Stmt.commit s4, none)
      else (execStmt (Stmt.release depth) s4, none)
  | (s3, some v) =>
      let s4 :=
        if 0 < s3.depth then
          (if depth = 0 then execStmt Stmt.rollback s3
           else execStmt (Stmt.rollbackTo depth) s3)
        else s3
      ({ s4 with depth := depth }, some v)

/-- Syntax of transaction bodies: engine statements, thrown values,
sequencing, and nested `transaction` invocations (the handle passed to
`fn` exposes `transaction` again). -/
inductive Prog (E : Type) where
  | skip
  | doStmt (sql : String)
  | failWith (v : E)
  | seq (p q : Prog E)
  | tx (mode : TxMode) (body : Prog E)

/-- Running a body: statements append to the engine stream, `failWith`
throws, `seq` stops at the first failure (an un-caught await rejection
aborts the body), and `tx` runs a nested transaction attempt. -/
def runProg {E : Type} : Prog E → TxState → TxState × Option E
  | Prog.skip, s => (s, none)
  | Prog.doStmt sql, s => (execStmt (Stmt.data sql) s, none)
  | Prog.failWith v, s => (s, some v)
  | Prog.seq p q, s =>
      match runProg p s with
      | (s1, none) => runProg q s1
      | (s1, some v) => (s1, some v)
  | Prog.tx m b, s => transactionAttempt m (runProg b) s

/-- Like `runProg`, but also lists the session states at the observable
instants of the run: after each engine statement / depth update block.
The transaction case mirrors `transactionAttempt` step by step. -/
def runProgSteps {E : Type} : Prog E → TxState →
    List TxState × (TxState × Option E)
  | Prog.skip, s => ([], (s, none))
  | Prog.doStmt sql, s =>
      let s1 := execStmt (Stmt.data sql) s
      ([s1], (s1, none))
  | Prog.failWith v, s => ([], (s, some v))
  | Prog.seq p q, s =>
      match runProgSteps p s with
      | (l1, (s1, none)) =>
          let r := runProgSteps q s1
          (l1 ++ r.1, r.2)
      | (l1, (s1, some v)) => (l1, (s1, some v))
  | Prog.tx m b, s =>
      let depth := s.depth
      let s2 := openFrame m s
      match runProgSteps b s2 with
      | (lb, (s3, none)) =>
          let s4 := { s3 with depth := s3.depth - 1 }
          let s5 := if depth = 0 then execStmt Stmt.commit s4
                    else execStmt (Stmt.release depth) s4
          (s2 :: lb ++ [s5], (s5, none))
      | (lb, (s3, some v)) =>
          let s4 :=
            if 0 < s3.depth then
              (if depth = 0 then execStmt Stmt.rollback s3
               else execStmt (Stmt.rollbackTo depth) s3)
            else s3
          let s5 := { s4 with depth := depth }
          (s2 :: lb ++ [s5], (s5, some v))

/-- Frame delta of a statement, following the frame-counting convention
of the specification: `BEGIN` and `SAVEPOINT` open a frame;
`COMMIT`, `RELEASE`, `ROLLBACK` and `ROLLBACK TO` close one. -/
def frameDelta : Stmt → Int
  | Stmt.beginTx _ => 1
  | Stmt.savepoint _ => 1
  | Stmt.commit => -1
  | Stmt.release _ => -1
  | Stmt.rollback => -1
  | Stmt.rollbackTo _ => -1
  | Stmt.data _ => 0

/-- Number of frames a statement stream has opened and not yet closed. -/
def openFrames (tr : List Stmt) : Int :=
  (tr.map frameDelta).sum

/-- The session invariant of the specification: the stored
`#transactionDepth` is non-negative and equals the number of
currently-open frames of the engine's statement stream. -/
def goodSt (s : TxState) : Prop :=
  s.depth = openFrames s.trace ∧ 0 ≤ s.depth

instance (s : TxState) : Decidable (goodSt s) := by
  unfold goodSt; infer_instance

/-! ### The session queue of `Database` (`src/database.ts`)

Structural model for the relationship between the queue and the
transaction manager.  A queued operation is either a direct operation
(the closures passed to `#enqueue` by `run`, `get`, `exec`, ...) or one
whole transaction attempt (the closure passed to `#enqueue` by
`Database.transaction`). -/

inductive QOp (E : Type) where
  | plainOp (p : Prog E)
  | txOp (mode : TxMode) (body : Prog E)

/-- The body program a queued operation runs against the engine. -/
def QOp.toProg {E : Type} : QOp E → Prog E
  | QOp.plainOp p => p
  | QOp.txOp m b => Prog.tx m b

/-- Running one queued operation against the engine: a transaction
operation runs the entire `BaseDatabase.transaction` attempt, issuing
its control statements directly against the engine adapter. -/
def runQOp {E : Type} (op : QOp E) (s : TxState) : TxState × Option E :=
  runProg op.toProg s

/-- The `Database` session as the queue sees it: the ordered list of
operations submitted through `#enqueue`. -/
structure DbSession (E : Type) where
  queued : List (QOp E)

/-- One `#enqueue` call appends exactly one operation to the queue. -/
def enqueueOp {E : Type} (s : DbSession E) (op : QOp E) : DbSession E :=
  ⟨s.queued ++ [op]⟩

/-- Invocation `Database.transaction(fn)(...)` (`src/database.ts` lines 84-86):
invoking the transactional function makes a single `#enqueue` call
whose operation is the whole `db.transaction(fn)(...)` attempt. -/
def dbTransactionInvoke {E : Type} (s : DbSession E) (mode : TxMode)
    (body : Prog E) : DbSession E :=
  enqueueOp s (QOp.txOp mode body)

/-- A direct data operation (e.g. `Database.run`) submitted through
`#enqueue`. -/
def dbRunInvoke {E : Type} (s : DbSession E) (sql : String) : DbSession E :=
  enqueueOp s (QOp.plainOp (Prog.doStmt sql))

/-- The engine state after the queue has drained: operations run
one-at-a-time in submission order, and a failing operation does not
stop the queue (`#enqueue` catches the result before continuing). -/
def runQueue {E : Type} : List (QOp E) → TxState → TxState
  | [], s => s
  | op :: rest, s => runQueue rest (runQOp op s).1

/-- Like `runQueue`, but also returns the engine-statement segment each
queued operation contributed, in submission order. -/
def runQueueTraces {E : Type} : List (QOp E) → TxState →
    List (List Stmt) × TxState
  | [], s => ([], s)
  | op :: rest, s =>
      let s1 := (runQOp op s).1
      let δ := s1.trace.drop s.trace.length
      let r := runQueueTraces rest s1
      (δ :: r.1, r.2)

/-! ### The `#enqueue` promise chain (`src/database.ts` lines 29-48)

Submission `k` creates `resultPromise k = queue.then(db => op_k(db))`
and `queueUpdatePromise k = queue.then(async db => { try { await
resultPromise k } catch {} return db })`, attaches
`queueUpdatePromise.catch(() => {})`, and replaces the queue with
`queueUpdatePromise k`.  The machine below tracks the settlement state
of every promise in this chain and lets reactions fire in any order
compatible with promise settlement, which over-approximates the
JavaScript microtask scheduler. -/

namespace Queue

/-- Settlement state of one promise in the `#enqueue` chain:
`none` = still pending; `some none` = fulfilled;
`some (some e)` = rejected with reason `e`. -/
abbrev Settle (E : Type) := Option (Option E)

/-- Chain state for `n` submitted operations: the `createDb` promise,
each submission's `resultPromise` and `queueUpdatePromise`, the order
in which operations actually executed against the engine (`trace`),
and whether the `catch` reaction attached to each `queueUpdatePromise`
has consumed a rejection. -/
structure ChainState (E : Type) where
  initSt : Settle E
  results : List (Settle E)
  tails : List (Settle E)
  trace : List Nat
  absorbed : List Bool
deriving DecidableEq, Repr

/-- Before anything settles: every promise pending, nothing executed. -/
def initialChain (E : Type) (n : Nat) : ChainState E :=
  ⟨none, List.replicate n none, List.replicate n none, [], List.replicate n false⟩

/-- The promise gating submission `k`: the session's `#queue` at the
moment `k` was submitted — the `createDb` promise for the first
submission, the previous submission's `queueUpdatePromise` afterwards. -/
def gate {E : Type} (s : ChainState E) : Nat → Settle E
  | 0 => s.initSt
  | k + 1 => s.tails.getD k none

/-- One promise reaction firing.  `initOut` is the outcome of engine
initialisation (`none` = the engine opened, `some e` = `createDb`
rejected with `e`); `opOut k` is operation `k`'s own outcome when it
runs against the engine. -/
inductive Step {E : Type} (n : Nat) (initOut : Option E)
    (opOut : Nat → Option E) : ChainState E → ChainState E → Prop where
  | settleInit (s : ChainState E) (h : s.initSt = none) :
      Step n initOut opOut s { s with initSt := some initOut }
  | runOpOk (s : ChainState E) (k : Nat) (hk : k < n)
      (hg : gate s k = some none) (hr : s.results.getD k none = none) :
      Step n initOut opOut s
        { s with results := s.results.set k (some (opOut k)),
                 trace := s.trace ++ [k] }
  | runOpErr (s : ChainState E) (k : Nat) (hk : k < n) (e : E)
      (hg : gate s k = some (some e)) (hr : s.results.getD k none = none) :
      Step n initOut opOut s
        { s with results := s.results.set k (some (some e)) }
  | settleTailOk (s : ChainState E) (k : Nat) (hk : k < n)
      (hg : gate s k = some none) (hr : s.results.getD k none ≠ none)
      (ht : s.tails.getD k none = none) :
      Step n initOut opOut s { s with tails := s.tails.set k (some none) }
  | settleTailErr (s : ChainState E) (k : Nat) (hk : k < n) (e : E)
      (hg : gate s k = some (some e)) (ht : s.tails.getD k none = none) :
      Step n initOut opOut s
        { s with tails := s.tails.set k (some (some e)) }
  | runCatch (s : ChainState E) (k : Nat) (hk : k < n) (e : E)
      (ht : s.tails.getD k none = some (some e))
      (ha : s.absorbed.getD k false = false) :
      Step n initOut opOut s { s with absorbed := s.absorbed.set k true }

/-- States the chain can be in after any interleaving of reactions. -/
def Reachable {E : Type} (n : Nat) (initOut : Option E)
    (opOut : Nat → Option E) (s : ChainState E) : Prop :=
  Relation.ReflTransGen (Step n initOut opOut) (initialChain E n) s

/-- The outcome submission `k`'s `resultPromise` must settle with:
its own operation outcome when the engine opened, the initialisation
error otherwise. -/
def expectedOutcome {E : Type} (initOut : Option E)
    (opOut : Nat → Option E) (k : Nat) : Option E :=
  match initOut with
  | none => opOut k
  | some e => some e

/-- Submission `k` has a rejected `queueUpdatePromise` whose `catch`
reaction has not yet run. -/
def tailErrUnabsorbed {E : Type} (s : ChainState E) (k : Nat) : Bool :=
  match s.tails.getD k none, s.absorbed.getD k false with
  | some (some _), false => true
  | _, _ => false

/-- Invariant of the `#enqueue` chain, preserved by every reaction. -/
structure ChainInv {E : Type} (n : Nat) (initOut : Option E)
    (opOut : Nat → Option E) (s : ChainState E) : Prop where
  lenR : s.results.length = n
  lenT : s.tails.length = n
  lenA : s.absorbed.length = n
  initC : s.initSt = none ∨ s.initSt = some initOut
  tailC : ∀ k, s.tails.getD k none ≠ none →
    k < n ∧ s.tails.getD k none = some initOut ∧
      (initOut = none → s.results.getD k none ≠ none)
  resC : ∀ k, s.results.getD k none ≠ none →
    k < n ∧ s.results.getD k none = some (expectedOutcome initOut opOut k)
  absC : ∀ k, s.absorbed.getD k false = true →
    k < n ∧ s.tails.getD k none ≠ none
  traceR : s.trace = List.range s.trace.length
  traceM : ∀ k, k ∈ s.trace ↔
    (k < n ∧ s.results.getD k none ≠ none ∧ initOut = none)

/-- Outcome assignment where operation 0 fails with error `7` and all
later operations succeed. -/
def firstOpFails : Nat → Option Nat :=
  fun k => if k = 0 then some 7 else none

/-- Chain state of two submissions, both executed, mid-run (the second
`queueUpdatePromise` not yet settled). -/
def twoOpsMid : ChainState Nat :=
  ⟨some none, [some none, some none], [some none, none], [0, 1],
    [false, false]⟩

/-- Quiescent chain state of two submissions under `firstOpFails`:
operation 0 failed with `7`, operation 1 succeeded, both
`queueUpdatePromise`s fulfilled. -/
def twoOpsDone : ChainState Nat :=
  ⟨some none, [some (some 7), some none], [some none, some none], [0, 1],
    [false, false]⟩

/-- Quiescent chain state of one submission after `createDb` rejected
with `5`: the operation never ran, its `resultPromise` rejected with
the same `5`, and the `catch` reaction consumed the
`queueUpdatePromise` rejection. -/
def initFailDone : ChainState Nat :=
  ⟨some (some 5), [some (some 5)], [some (some 5)], [], [true]⟩

end Queue

/-! ### `BaseDatabase` close / raw over a driver connection -/

/-- State of the underlying driver connection (the external engine
adapter): once the connection is closed, the driver rejects statement
preparation and execution. -/
structure DriverSt where
  isOpen : Bool
deriving DecidableEq, Repr

/-- Failures surfaced by the driver model. -/
inductive DbFailure where
  | connClosed
deriving DecidableEq, Repr

/-- Driver statement preparation: rejected once the connection is
closed (this is the driver's own error — the library adds no
closed-session check of its own). -/
def DriverSt.prepareD (d : DriverSt) (_sql : String) :
    Except DbFailure DriverSt :=
  if d.isOpen then Except.ok d else Except.error DbFailure.connClosed

/-- Driver `exec`: rejected once the connection is closed. -/
def DriverSt.execD (d : DriverSt) (_sql : String) :
    Except DbFailure DriverSt :=
  if d.isOpen then Except.ok d else Except.error DbFailure.connClosed

/-- Driver `close`: closes the connection. -/
def DriverSt.closeD (_d : DriverSt) : DriverSt :=
  { isOpen := false }

/-- The `BaseDatabase` session object of `base-database.ts`: the
wrapped driver connection `_db` and the private `#isClosed` flag. -/
structure BaseDb where
  driver : DriverSt
  isClosed : Bool
deriving DecidableEq, Repr

/-- Method `BaseDatabase.prepare` (lines 39-48): forwards to the driver,
resolving with a statement on success and rejecting with the driver's
error otherwise. -/
def BaseDb.prepare (db : BaseDb) (sql : String) : Except DbFailure BaseDb :=
  match db.driver.prepareD sql with
  | Except.ok _ => Except.ok db
  | Except.error e => Except.error e

/-- Method `BaseDatabase.run` (lines 27-29): prepare then execute the
statement. -/
def BaseDb.run (db : BaseDb) (sql : String) : Except DbFailure BaseDb :=
  db.prepare sql

/-- Method `BaseDatabase.get` (lines 31-33): prepare then fetch. -/
def BaseDb.get (db : BaseDb) (sql : String) : Except DbFailure BaseDb :=
  db.prepare sql

/-- Method `BaseDatabase.all` (lines 35-37): prepare then fetch all rows. -/
def BaseDb.all (db : BaseDb) (sql : String) : Except DbFailure BaseDb :=
  db.prepare sql

/-- Method `BaseDatabase.exec` (lines 50-59): forwards to the driver. -/
def BaseDb.exec (db : BaseDb) (sql : String) : Except DbFailure BaseDb :=
  match db.driver.execD sql with
  | Except.ok _ => Except.ok db
  | Except.error e => Except.error e

/-- Method `BaseDatabase.pragma` (lines 86-92): runs `PRAGMA <sql>` through
`get`/`all`, hence through `prepare`. -/
def BaseDb.pragma (db : BaseDb) (sql : String) : Except DbFailure BaseDb :=
  db.get ("PRAGMA " ++ sql)

/-- Method `BaseDatabase.close` (lines 118-132): resolve immediately when
`#isClosed` is already set; otherwise close the driver connection and
set the flag. -/
def BaseDb.close (db : BaseDb) : Except DbFailure BaseDb :=
  if db.isClosed then Except.ok db
  else Except.ok { driver := db.driver.closeD, isClosed := true }

/-- Method `BaseDatabase.raw` (line 196): `Promise.resolve(this._db)` — always
resolves with the underlying driver handle, closed or not. -/
def BaseDb.raw (db : BaseDb) : Except DbFailure DriverSt :=
  Except.ok db.driver

/-! ### Interface surfaces (`src/typings.ts`) -/

/-- The method surface of `IDatabase` (`typings.ts`), in declaration
order. -/
def idatabaseSurface : List String :=
  ["run", "get", "all", "prepare", "exec", "begin", "commit", "rollback",
   "transaction", "function", "aggregate", "loadExtension", "backup",
   "pragma", "attach", "serialize", "close", "raw"]

/-- The members removed by `ITransaction`'s `Omit` (`typings.ts` lines
348-351). -/
def itransactionOmitted : List String :=
  ["backup", "serialize", "close", "begin", "commit", "rollback"]

/-- The method surface of `ITransaction = Omit<IDatabase, ...>`. -/
def itransactionSurface : List String :=
  idatabaseSurface.filter (fun m => !(itransactionOmitted.contains m))

/-! ## Theorems -/

/-- The steps model computes the same final state and outcome as the
direct embedding of the source. -/
theorem runProgSteps_agree {E : Type} (p : Prog E) (s : TxState) :
    (runProgSteps p s).2 = runProg p s := by
  induction p generalizing s with
  | skip => rfl
  | doStmt sql => rfl
  | failWith v => rfl
  | seq p q ihp ihq =>
      simp only [runProgSteps, runProg]
      rcases h : runProgSteps p s with ⟨l1, s1, r1⟩
      have hp : runProg p s = (s1, r1) := by rw [← ihp]; rw [h]
      cases r1 with
      | none => simp [h, hp, ihq]
      | some v => simp [h, hp]
  | tx m b ihb =>
      simp only [runProgSteps, runProg, transactionAttempt]
      rcases h : runProgSteps b (openFrame m s) with ⟨lb, s3, rb⟩
      have hb : runProg b (openFrame m s) = (s3, rb) := by rw [← ihb]; rw [h]
      cases rb with
      | none =>
          simp only [h, hb]
          by_cases hd : s.depth = 0 <;> simp [hd]
      | some v => simp [h, hb]

theorem openFrames_append (a b : List Stmt) :
    openFrames (a ++ b) = openFrames a + openFrames b := by
  simp [openFrames]

theorem openFrames_exec (st : Stmt) (s : TxState) :
    openFrames (execStmt st s).trace = openFrames s.trace + frameDelta st := by
  simp [execStmt, openFrames_append, openFrames]

theorem openFrame_trace (mode : TxMode) (s : TxState) :
    (openFrame mode s).trace = s.trace ++ [openStmt mode s.depth] := by
  by_cases hd : s.depth = 0 <;> simp [openFrame, openStmt, hd, execStmt]

theorem openFrame_depth (mode : TxMode) (s : TxState) :
    (openFrame mode s).depth = s.depth + 1 := by
  by_cases hd : s.depth = 0 <;> simp [openFrame, hd, execStmt]

/-- A transaction body never changes the net transaction depth: each
nested attempt restores the captured depth on both the success and the
failure path. -/
theorem runProg_depth {E : Type} (p : Prog E) (s : TxState) :
    (runProg p s).1.depth = s.depth := by
  induction p generalizing s with
  | skip => rfl
  | doStmt sql => rfl
  | failWith v => rfl
  | seq p q ihp ihq =>
      simp only [runProg]
      rcases h : runProg p s with ⟨s1, r1⟩
      have h1 : s1.depth = s.depth := by
        have := ihp s; rw [h] at this; exact this
      cases r1 with
      | none => rw [ihq s1, h1]
      | some v => exact h1
  | tx m b ihb =>
      simp only [runProg, transactionAttempt]
      rcases h : runProg b (openFrame m s) with ⟨s3, rb⟩
      have h3 : s3.depth = (openFrame m s).depth := by
        have := ihb (openFrame m s); rw [h] at this; exact this
      have hopen : (openFrame m s).depth = s.depth + 1 := by
        simp only [openFrame]
        by_cases hd : s.depth = 0 <;> simp [hd, execStmt]
      cases rb with
      | none =>
          by_cases hd : s.depth = 0 <;>
            simp [hd, execStmt, h3, hopen]
      | some v =>
          by_cases hp : 0 < s3.depth <;>
            by_cases hd : s.depth = 0 <;>
              simp [hp, hd, execStmt]

/-- A transaction body only appends to the engine's statement stream. -/
theorem runProg_trace_mono {E : Type} (p : Prog E) (s : TxState) :
    ∃ δ, (runProg p s).1.trace = s.trace ++ δ := by
  induction p generalizing s with
  | skip => exact ⟨[], by simp [runProg]⟩
  | doStmt sql => exact ⟨[Stmt.data sql], by simp [runProg, execStmt]⟩
  | failWith v => exact ⟨[], by simp [runProg]⟩
  | seq p q ihp ihq =>
      simp only [runProg]
      rcases h : runProg p s with ⟨s1, r1⟩
      obtain ⟨δ1, hδ1⟩ := ihp s
      rw [h] at hδ1
      cases r1 with
      | none =>
          obtain ⟨δ2, hδ2⟩ := ihq s1
          refine ⟨δ1 ++ δ2, ?_⟩
          rw [hδ2, hδ1, List.append_assoc]
      | some v => exact ⟨δ1, hδ1⟩
  | tx m b ihb =>
      simp only [runProg, transactionAttempt]
      rcases h : runProg b (openFrame m s) with ⟨s3, rb⟩
      obtain ⟨δb, hδb⟩ := ihb (openFrame m s)
      rw [h] at hδb
      rw [openFrame_trace] at hδb
      simp only at hδb
      cases rb with
      | none =>
          by_cases hd : s.depth = 0
          · refine ⟨[openStmt m s.depth] ++ δb ++ [Stmt.commit], ?_⟩
            simp [hd, execStmt, hδb]
          · refine ⟨[openStmt m s.depth] ++ δb ++ [Stmt.release s.depth], ?_⟩
            simp [hd, execStmt, hδb]
      | some v =>
          by_cases hp : 0 < s3.depth
          · by_cases hd : s.depth = 0
            · refine ⟨[openStmt m s.depth] ++ δb ++ [Stmt.rollback], ?_⟩
              simp [hp, hd, execStmt, hδb]
            · refine ⟨[openStmt m s.depth] ++ δb ++ [Stmt.rollbackTo s.depth], ?_⟩
              simp [hp, hd, execStmt, hδb]
          · refine ⟨[openStmt m s.depth] ++ δb, ?_⟩
            simp [hp, hδb]

theorem frameDelta_openStmt (m : TxMode) (d : Int) :
    frameDelta (openStmt m d) = 1 := by
  by_cases hd : d = 0 <;> simp [openStmt, hd, frameDelta]

/-- Invariant preservation along every observable instant of a body
run: starting from a state where the stored depth matches the open
frames and is non-negative, every intermediate state keeps that
invariant, the final state keeps it, and the final depth equals the
starting depth. -/
theorem runProgSteps_inv {E : Type} (p : Prog E) (s : TxState)
    (hg : goodSt s) :
    (∀ s' ∈ (runProgSteps p s).1, goodSt s') ∧
      goodSt (runProgSteps p s).2.1 ∧
      (runProgSteps p s).2.1.depth = s.depth := by
  induction p generalizing s with
  | skip => exact ⟨by simp [runProgSteps], hg, rfl⟩
  | doStmt sql =>
      have hg1 : goodSt (execStmt (Stmt.data sql) s) := by
        obtain ⟨h1, h2⟩ := hg
        constructor
        · rw [openFrames_exec]
          simp [execStmt, frameDelta, h1]
        · simpa [execStmt] using h2
      refine ⟨?_, by simpa [runProgSteps] using hg1, by simp [runProgSteps, execStmt]⟩
      intro s' hs'
      simp only [runProgSteps, List.mem_singleton] at hs'
      subst hs'; exact hg1
  | failWith v => exact ⟨by simp [runProgSteps], hg, rfl⟩
  | seq p q ihp ihq =>
      rcases h : runProgSteps p s with ⟨l1, s1, r1⟩
      have hi := ihp s hg
      rw [h] at hi
      obtain ⟨hall, hfin, hdep⟩ := hi
      cases r1 with
      | none =>
          have hi2 := ihq s1 hfin
          obtain ⟨hall2, hfin2, hdep2⟩ := hi2
          refine ⟨?_, ?_, ?_⟩ <;> simp only [runProgSteps, h]
          · intro s' hs'
            rcases List.mem_append.mp hs' with h1 | h2
            · exact hall s' h1
            · exact hall2 s' h2
          · exact hfin2
          · rw [hdep2]; simpa using hdep
      | some v =>
          refine ⟨?_, ?_, ?_⟩ <;> simp only [runProgSteps, h]
          · exact hall
          · exact hfin
          · simpa using hdep
  | tx m b ihb =>
      have hg2 : goodSt (openFrame m s) := by
        obtain ⟨h1, h2⟩ := hg
        constructor
        · rw [openFrame_depth, openFrame_trace, openFrames_append]
          simp [openFrames, frameDelta_openStmt, h1]
        · rw [openFrame_depth]; omega
      rcases h : runProgSteps b (openFrame m s) with ⟨lb, s3, rb⟩
      have hi := ihb (openFrame m s) hg2
      rw [h] at hi
      obtain ⟨hall, hfin, hdep⟩ := hi
      simp only at hall hfin hdep
      have hdep3 : s3.depth = s.depth + 1 := by
        rw [hdep, openFrame_depth]
      have hnn : 0 ≤ s.depth := hg.2
      have hof3 : s3.depth = openFrames s3.trace := hfin.1
      cases rb with
      | none =>
          have hg4 : goodSt (if s.depth = 0 then
              execStmt Stmt.commit { s3 with depth := s3.depth - 1 }
            else execStmt (Stmt.release s.depth) { s3 with depth := s3.depth - 1 }) := by
            by_cases hd : s.depth = 0
            · rw [if_pos hd]
              refine ⟨?_, ?_⟩
              · show ({ s3 with depth := s3.depth - 1 } : TxState).depth =
                  openFrames (execStmt Stmt.commit { s3 with depth := s3.depth - 1 }).trace
                rw [openFrames_exec]
                simp only [execStmt, frameDelta]
                rw [← hof3]; omega
              · show (0 : Int) ≤ s3.depth - 1
                omega
            · rw [if_neg hd]
              refine ⟨?_, ?_⟩
              · show ({ s3 with depth := s3.depth - 1 } : TxState).depth =
                  openFrames (execStmt (Stmt.release s.depth)
                    { s3 with depth := s3.depth - 1 }).trace
                rw [openFrames_exec]
                simp only [execStmt, frameDelta]
                rw [← hof3]; omega
              · show (0 : Int) ≤ s3.depth - 1
                omega
          refine ⟨?_, ?_, ?_⟩ <;> simp only [runProgSteps, h]
          · intro s' hs'
            simp only [List.cons_append, List.mem_cons, List.mem_append,
              List.mem_singleton, List.not_mem_nil, or_false] at hs'
            rcases hs' with h1 | h2 | h3
            · rw [h1]; exact hg2
            · exact hall s' h2
            · rw [h3]; exact hg4
          · exact hg4
          · by_cases hd : s.depth = 0 <;> simp [hd, execStmt, hdep3]
      | some v =>
          have hpos : 0 < s3.depth := by omega
          have hg5 : goodSt { (if s.depth = 0 then execStmt Stmt.rollback s3
              else execStmt (Stmt.rollbackTo s.depth) s3) with depth := s.depth } := by
            by_cases hd : s.depth = 0
            · rw [if_pos hd]
              refine ⟨?_, hnn⟩
              show s.depth = openFrames (execStmt Stmt.rollback s3).trace
              rw [openFrames_exec]
              simp only [frameDelta]
              rw [← hof3]; omega
            · rw [if_neg hd]
              refine ⟨?_, hnn⟩
              show s.depth = openFrames (execStmt (Stmt.rollbackTo s.depth) s3).trace
              rw [openFrames_exec]
              simp only [frameDelta]
              rw [← hof3]; omega
          refine ⟨?_, ?_, ?_⟩ <;> simp only [runProgSteps, h, hpos, if_true]
          · intro s' hs'
            simp only [List.cons_append, List.mem_cons, List.mem_append,
              List.mem_singleton, List.not_mem_nil, or_false] at hs'
            rcases hs' with h1 | h2 | h3
            · rw [h1]; exact hg2
            · exact hall s' h2
            · rw [h3]; exact hg5
          · exact hg5

theorem openFrame_mode_irrelevant (m1 m2 : TxMode) (s : TxState)
    (hd : s.depth ≠ 0) : openFrame m1 s = openFrame m2 s := by
  simp [openFrame, hd]

/-- C2: when a transaction body throws any value `v`, the attempt
re-raises exactly `v` (same value, unwrapped), resets
`#transactionDepth` to the captured depth, and — whenever the current
depth is still positive when the failure is caught — first issues
`ROLLBACK` (captured depth 0) or `ROLLBACK TO SAVEPOINT <name>`
(captured depth > 0); when the frame is no longer open nothing further
is issued. -/
theorem transaction_failure_rethrows_identity {E : Type} (mode : TxMode)
    (body : TxState → TxState × Option E) (s s3 : TxState) (v : E)
    (hbody : body (openFrame mode s) = (s3, some v)) :
    (transactionAttempt mode body s).2 = some v ∧
    (transactionAttempt mode body s).1.depth = s.depth ∧
    (0 < s3.depth →
      (transactionAttempt mode body s).1.trace =
        s3.trace ++
          [if s.depth = 0 then Stmt.rollback else Stmt.rollbackTo s.depth]) ∧
    (s3.depth ≤ 0 → (transactionAttempt mode body s).1.trace = s3.trace) := by
  refine ⟨?_, ?_, ?_, ?_⟩
  · simp only [transactionAttempt, hbody]
  · simp only [transactionAttempt, hbody]
  · intro hp
    simp only [transactionAttempt, hbody, if_pos hp]
    by_cases hd : s.depth = 0 <;> simp [hd, execStmt]
  · intro hp
    simp only [transactionAttempt, hbody, if_neg (show ¬0 < s3.depth by omega)]

/-- Witness for C2 at the spec's own example: a body that throws the
plain string value `a string error` from a top-level transaction. -/
theorem transaction_failure_rethrows_identity_witness :
    (fun t => (t, some "a string error"))
        (openFrame TxMode.plain ⟨0, []⟩) =
      (openFrame TxMode.plain ⟨0, []⟩, some "a string error") ∧
    (transactionAttempt TxMode.plain
        (fun t => (t, some "a string error")) ⟨0, []⟩).2 =
      some "a string error" ∧
    (transactionAttempt TxMode.plain
        (fun t => (t, some "a string error")) ⟨0, []⟩).1.depth = 0 ∧
    (0 < (openFrame TxMode.plain ⟨0, []⟩).depth →
      (transactionAttempt TxMode.plain
          (fun t => (t, some "a string error")) ⟨0, []⟩).1.trace =
        (openFrame TxMode.plain ⟨0, []⟩).trace ++
          [if (0 : Int) = 0 then Stmt.rollback else Stmt.rollbackTo 0]) := by
  refine ⟨rfl, ?_⟩
  have h := transaction_failure_rethrows_identity TxMode.plain
    (fun t => (t, some "a string error")) ⟨0, []⟩
    (openFrame TxMode.plain ⟨0, []⟩) "a string error" rfl
  exact ⟨h.1, h.2.1, h.2.2.1⟩

/-- C3: a transaction attempt opens its frame with `BEGIN <mode>` at
captured depth 0 and with `SAVEPOINT isomorphic_sqlite_<depth>` at
captured depth > 0; on success it closes the frame with `COMMIT` at
depth 0 and `RELEASE SAVEPOINT <name>` at depth > 0; the chosen mode
has no effect whatsoever on an attempt entered at non-zero depth; and
the statement constructors render exactly the SQL text of the source's
template literals. -/
theorem transaction_frame_statements {E : Type} (m : TxMode) (b : Prog E)
    (s : TxState) (d : Int) :
    (∃ δ, (runProg (Prog.tx m b) s).1.trace =
        s.trace ++ [openStmt m s.depth] ++ δ) ∧
    ((runProg (Prog.tx m b) s).2 = none →
      ∃ δ, (runProg (Prog.tx m b) s).1.trace =
        s.trace ++ [openStmt m s.depth] ++ δ ++
          [if s.depth = 0 then Stmt.commit else Stmt.release s.depth]) ∧
    (∀ (m1 m2 : TxMode) (body : TxState → TxState × Option E),
      s.depth ≠ 0 →
        transactionAttempt m1 body s = transactionAttempt m2 body s) ∧
    openStmt m 0 = Stmt.beginTx m ∧
    (d ≠ 0 → openStmt m d = Stmt.savepoint d) ∧
    (Stmt.beginTx m).toSQL = "BEGIN " ++ modeStr m ∧
    (Stmt.savepoint d).toSQL = "SAVEPOINT isomorphic_sqlite_" ++ toString d ∧
    Stmt.commit.toSQL = "COMMIT" ∧
    (Stmt.release d).toSQL =
      "RELEASE SAVEPOINT isomorphic_sqlite_" ++ toString d := by
  refine ⟨?_, ?_, ?_, rfl, ?_, rfl, rfl, rfl, rfl⟩
  · obtain ⟨δ, hδ⟩ := runProg_trace_mono b (openFrame m s)
    rw [openFrame_trace] at hδ
    simp only [runProg, transactionAttempt]
    rcases h : runProg b (openFrame m s) with ⟨s3, rb⟩
    rw [h] at hδ
    simp only at hδ
    cases rb with
    | none =>
        by_cases hd : s.depth = 0
        · exact ⟨δ ++ [Stmt.commit], by simp [hd, execStmt, hδ]⟩
        · exact ⟨δ ++ [Stmt.release s.depth], by simp [hd, execStmt, hδ]⟩
    | some v =>
        by_cases hp : 0 < s3.depth
        · by_cases hd : s.depth = 0
          · exact ⟨δ ++ [Stmt.rollback], by simp [hp, hd, execStmt, hδ]⟩
          · exact ⟨δ ++ [Stmt.rollbackTo s.depth],
              by simp [hp, hd, execStmt, hδ]⟩
        · exact ⟨δ, by simp [hp, hδ]⟩
  · intro hok
    obtain ⟨δ, hδ⟩ := runProg_trace_mono b (openFrame m s)
    rw [openFrame_trace] at hδ
    simp only [runProg, transactionAttempt] at hok ⊢
    rcases h : runProg b (openFrame m s) with ⟨s3, rb⟩
    rw [h] at hδ hok
    simp only at hδ
    cases rb with
    | none =>
        refine ⟨δ, ?_⟩
        by_cases hd : s.depth = 0 <;> simp [hd, execStmt, hδ]
    | some v =>
        exfalso
        by_cases hp : 0 < s3.depth <;> simp [hp] at hok
  · intro m1 m2 body hd
    simp only [transactionAttempt, openFrame_mode_irrelevant m1 m2 s hd]
  · intro hd
    simp [openStmt, hd]

/-- Witness for C3: a deferred-mode attempt around one insert at
depth 0 commits, and mode choice is irrelevant for a state at depth 1. -/
theorem transaction_frame_statements_witness :
    ((runProg (Prog.tx TxMode.deferredM (Prog.doStmt "INSERT") : Prog Nat)
        ⟨0, []⟩).2 = none ∧
      (1 : Int) ≠ 0 ∧ (2 : Int) ≠ 0) ∧
    (∃ δ, (runProg (Prog.tx TxMode.deferredM (Prog.doStmt "INSERT") : Prog Nat)
        ⟨0, []⟩).1.trace =
      [] ++ [openStmt TxMode.deferredM 0] ++ δ ++
        [if (0 : Int) = 0 then Stmt.commit else Stmt.release 0]) ∧
    transactionAttempt TxMode.immediateM
        (fun t => (t, (none : Option Nat))) ⟨1, []⟩ =
      transactionAttempt TxMode.exclusiveM
        (fun t => (t, none)) ⟨1, []⟩ ∧
    openStmt TxMode.deferredM 2 = Stmt.savepoint 2 := by
  have h := transaction_frame_statements (E := Nat) TxMode.deferredM
    (Prog.doStmt "INSERT") ⟨0, []⟩ 2
  refine ⟨⟨by decide, by decide, by decide⟩, ?_, ?_, ?_⟩
  · exact h.2.1 (by decide)
  · exact (transaction_frame_statements (E := Nat) TxMode.immediateM
      Prog.skip ⟨1, []⟩ 1).2.2.1 TxMode.immediateM TxMode.exclusiveM
      (fun t => (t, none)) (by decide)
  · exact h.2.2.2.2.1 (by decide)

theorem runQOp_trace_mono {E : Type} (op : QOp E) (s : TxState) :
    ∃ δ, (runQOp op s).1.trace = s.trace ++ δ :=
  runProg_trace_mono op.toProg s

/-- Draining the queue yields one contiguous engine-statement segment
per queued operation, in submission order. -/
theorem runQueueTraces_spec {E : Type} (qs : List (QOp E)) (s : TxState) :
    (runQueueTraces qs s).2 = runQueue qs s ∧
    (runQueueTraces qs s).1.length = qs.length ∧
    (runQueue qs s).trace = s.trace ++ (runQueueTraces qs s).1.flatten := by
  induction qs generalizing s with
  | nil => simp [runQueueTraces, runQueue]
  | cons op rest ih =>
      obtain ⟨δ, hδ⟩ := runQOp_trace_mono op s
      have hdrop : ((runQOp op s).1.trace).drop s.trace.length = δ := by
        rw [hδ, List.drop_left]
      obtain ⟨ih1, ih2, ih3⟩ := ih (runQOp op s).1
      refine ⟨?_, ?_, ?_⟩
      · simp [runQueueTraces, runQueue, ih1]
      · simp [runQueueTraces, runQueue, ih2]
      · simp only [runQueueTraces, runQueue, List.flatten_cons, hdrop]
        rw [ih3, hδ, List.append_assoc]

/-- C6 counterexample: invoking a transaction with an empty body makes
exactly one `#enqueue` submission, yet the attempt issues two control
statements (`BEGIN` and `COMMIT`) against the engine from inside that
single queued operation — so the control statements are not themselves
submitted through the session queue one by one. -/
theorem transaction_control_not_individually_queued :
    (dbTransactionInvoke (⟨[]⟩ : DbSession Nat) TxMode.plain
        Prog.skip).queued.length = 1 ∧
    ((runQOp (QOp.txOp TxMode.plain Prog.skip : QOp Nat)
        ⟨0, []⟩).1.trace.countP (fun st => st.isControl)) = 2 ∧
    ¬(2 ≤ 1) := by
  decide

/-- C6 amended: a transaction invocation is submitted through the
session queue as a single ordinary queued operation, inside which the
transaction manager issues its control statements directly against the
engine adapter; the ordering consequence still holds — the queue runs
operations sequentially, so every operation (a whole transaction
included) contributes one contiguous statement segment in submission
order, and control statements cannot be reordered relative to
concurrently-submitted direct operations. -/
theorem transaction_single_queue_submission {E : Type} (sess : DbSession E)
    (m : TxMode) (b : Prog E) (qs : List (QOp E)) (s : TxState) :
    (dbTransactionInvoke sess m b).queued =
      sess.queued ++ [QOp.txOp m b] ∧
    (runQueueTraces qs s).1.length = qs.length ∧
    (runQueue qs s).trace = s.trace ++ (runQueueTraces qs s).1.flatten :=
  ⟨rfl, (runQueueTraces_spec qs s).2.1, (runQueueTraces_spec qs s).2.2⟩

/-- C7 counterexample: closing a session succeeds and marks it closed,
yet `raw()` submitted afterwards still resolves (with the underlying
driver handle) — not every post-close operation fails, and the
statement operations that do fail carry the driver's connection-closed
error, not a library-generated session-closed error. -/
theorem closed_session_raw_still_succeeds :
    BaseDb.close ⟨⟨true⟩, false⟩ = Except.ok ⟨⟨false⟩, true⟩ ∧
    BaseDb.raw ⟨⟨false⟩, true⟩ = Except.ok ⟨false⟩ ∧
    BaseDb.exec ⟨⟨false⟩, true⟩ "SELECT 1" =
      Except.error DbFailure.connClosed :=
  ⟨rfl, rfl, rfl⟩

/-- C7 amended: once the driver connection is closed, every operation
that reaches the driver's statement interface (`prepare`, `run`,
`get`, `all`, `exec`, `pragma`) fails with the driver's
connection-closed error — the library adds no closed-session check of
its own — while `close()` (idempotent) and `raw()` still resolve. -/
theorem closed_session_statement_ops_fail (db : BaseDb) (sql : String)
    (h : db.driver.isOpen = false) :
    db.prepare sql = Except.error DbFailure.connClosed ∧
    db.run sql = Except.error DbFailure.connClosed ∧
    db.get sql = Except.error DbFailure.connClosed ∧
    db.all sql = Except.error DbFailure.connClosed ∧
    db.exec sql = Except.error DbFailure.connClosed ∧
    db.pragma sql = Except.error DbFailure.connClosed ∧
    db.raw = Except.ok db.driver ∧
    (∃ db', db.close = Except.ok db') := by
  refine ⟨?_, ?_, ?_, ?_, ?_, ?_, rfl, ?_⟩
  · simp [BaseDb.prepare, DriverSt.prepareD, h]
  · simp [BaseDb.run, BaseDb.prepare, DriverSt.prepareD, h]
  · simp [BaseDb.get, BaseDb.prepare, DriverSt.prepareD, h]
  · simp [BaseDb.all, BaseDb.prepare, DriverSt.prepareD, h]
  · simp [BaseDb.exec, DriverSt.execD, h]
  · simp [BaseDb.pragma, BaseDb.get, BaseDb.prepare, DriverSt.prepareD, h]
  · by_cases hc : db.isClosed
    · exact ⟨db, by simp [BaseDb.close, hc]⟩
    · exact ⟨⟨db.driver.closeD, true⟩, by simp [BaseDb.close, hc]⟩

/-- Witness for the amended C7 at the state reached by closing a fresh
session. -/
theorem closed_session_statement_ops_fail_witness :
    ((⟨⟨false⟩, true⟩ : BaseDb).driver.isOpen = false) ∧
    (BaseDb.prepare ⟨⟨false⟩, true⟩ "SELECT 1" =
        Except.error DbFailure.connClosed ∧
      BaseDb.run ⟨⟨false⟩, true⟩ "SELECT 1" =
        Except.error DbFailure.connClosed ∧
      BaseDb.get ⟨⟨false⟩, true⟩ "SELECT 1" =
        Except.error DbFailure.connClosed ∧
      BaseDb.all ⟨⟨false⟩, true⟩ "SELECT 1" =
        Except.error DbFailure.connClosed ∧
      BaseDb.exec ⟨⟨false⟩, true⟩ "SELECT 1" =
        Except.error DbFailure.connClosed ∧
      BaseDb.pragma ⟨⟨false⟩, true⟩ "SELECT 1" =
        Except.error DbFailure.connClosed ∧
      BaseDb.raw ⟨⟨false⟩, true⟩ =
        Except.ok (⟨⟨false⟩, true⟩ : BaseDb).driver ∧
      (∃ db', BaseDb.close ⟨⟨false⟩, true⟩ = Except.ok db')) :=
  ⟨by decide, closed_session_statement_ops_fail ⟨⟨false⟩, true⟩ "SELECT 1"
    (by decide)⟩

/-- C9: the handle a transaction body receives is typed `ITransaction`,
whose surface is exactly the `IDatabase` surface minus the six
connection-lifecycle members (`backup`, `serialize`, `close`, `begin`,
`commit`, `rollback`), and it still exposes `transaction` so bodies
can open nested transactions. -/
theorem itransaction_surface_spec :
    itransactionSurface =
      ["run", "get", "all", "prepare", "exec", "transaction", "function",
       "aggregate", "loadExtension", "pragma", "attach", "raw"] ∧
    itransactionSurface.contains "transaction" = true ∧
    itransactionOmitted.all
      (fun m => !(itransactionSurface.contains m)) = true ∧
    idatabaseSurface.all
      (fun m => itransactionOmitted.contains m ||
        itransactionSurface.contains m) = true := by
  decide

/-- C10: `close()` is idempotent — on an already-closed session it
resolves as a no-op, and closing any session twice resolves
successfully both times. -/
theorem close_idempotent (db : BaseDb) :
    (db.isClosed = true → db.close = Except.ok db) ∧
    (∃ db', db.close = Except.ok db' ∧ db'.isClosed = true ∧
      db'.close = Except.ok db') := by
  constructor
  · intro h; simp [BaseDb.close, h]
  · by_cases h : db.isClosed
    · exact ⟨db, by simp [BaseDb.close, h], h, by simp [BaseDb.close, h]⟩
    · exact ⟨⟨db.driver.closeD, true⟩, by simp [BaseDb.close, h], rfl,
        by simp [BaseDb.close]⟩

/-- Witness for C10: a fresh open session and an already-closed one. -/
theorem close_idempotent_witness :
    ((⟨⟨false⟩, true⟩ : BaseDb).isClosed = true ∧
      BaseDb.close ⟨⟨false⟩, true⟩ = Except.ok ⟨⟨false⟩, true⟩) ∧
    (∃ db', BaseDb.close ⟨⟨true⟩, false⟩ = Except.ok db' ∧
      db'.isClosed = true ∧ db'.close = Except.ok db') :=
  ⟨⟨by decide, (close_idempotent ⟨⟨false⟩, true⟩).1 (by decide)⟩,
    (close_idempotent ⟨⟨true⟩, false⟩).2⟩

/-- C5: starting from a session state whose stored `#transactionDepth`
matches the number of open frames and is non-negative (in particular
the fresh session at depth 0 with an empty statement stream), every
observable intermediate state of any sequence of statements and
(nested, possibly failing) transaction attempts keeps
`#transactionDepth` equal to the number of currently-open frames and
never negative, and the run returns to its starting depth. -/
theorem transactionDepth_invariant {E : Type} (p : Prog E) (s0 : TxState)
    (h1 : s0.depth = openFrames s0.trace) (h2 : 0 ≤ s0.depth) :
    (∀ s' ∈ (runProgSteps p s0).1,
      s'.depth = openFrames s'.trace ∧ 0 ≤ s'.depth) ∧
    (runProgSteps p s0).2.1.depth = s0.depth := by
  have h := runProgSteps_inv p s0 ⟨h1, h2⟩
  exact ⟨h.1, h.2.2⟩

/-- Witness for C5: a fresh session running a top-level transaction
whose body inserts and then runs a failing nested transaction. -/
theorem transactionDepth_invariant_witness :
    ((0 : Int) = openFrames [] ∧ (0 : Int) ≤ 0) ∧
    ((∀ s' ∈ (runProgSteps
        (Prog.tx TxMode.plain (Prog.seq (Prog.doStmt "INSERT")
          (Prog.tx TxMode.plain (Prog.failWith (0 : Nat))))) ⟨0, []⟩).1,
      s'.depth = openFrames s'.trace ∧ 0 ≤ s'.depth) ∧
    (runProgSteps
        (Prog.tx TxMode.plain (Prog.seq (Prog.doStmt "INSERT")
          (Prog.tx TxMode.plain (Prog.failWith (0 : Nat))))) ⟨0, []⟩).2.1.depth
      = 0) :=
  ⟨⟨by decide, by decide⟩,
    transactionDepth_invariant _ _ (by decide) (by decide)⟩

/-! ### Queue machine invariants -/

theorem getD_set_self {α : Type} (l : List α) (k : Nat) (v d : α)
    (h : k < l.length) : (l.set k v).getD k d = v := by
  simp [List.getD, List.getElem?_set_self', List.getElem?_eq_getElem h]

theorem getD_set_ne {α : Type} (l : List α) (i k : Nat) (v d : α)
    (h : i ≠ k) : (l.set k v).getD i d = l.getD i d := by
  simp [List.getD, List.getElem?_set_ne (Ne.symm h)]

theorem getD_replicate_self {α : Type} (n i : Nat) (a : α) :
    (List.replicate n a).getD i a = a := by
  by_cases h : i < n
  · simp [List.getD, List.getElem?_replicate, h]
  · simp [List.getD, List.getElem?_replicate, h]

namespace Queue

/-- Every gate is either pending or settled with the initialisation
status: the chain only ever forwards `createDb`'s outcome. -/
theorem gate_mem {E : Type} {n : Nat} {initOut : Option E}
    {opOut : Nat → Option E} {s : ChainState E}
    (inv : ChainInv n initOut opOut s) (k : Nat) :
    gate s k = none ∨ gate s k = some initOut := by
  cases k with
  | zero => exact inv.initC
  | succ j =>
      by_cases h : s.tails.getD j none = none
      · exact Or.inl h
      · exact Or.inr (inv.tailC j h).2.1

/-- The invariant holds before any reaction fires. -/
theorem chainInv_initial {E : Type} (n : Nat) (initOut : Option E)
    (opOut : Nat → Option E) :
    ChainInv n initOut opOut (initialChain E n) := by
  refine ⟨?_, ?_, ?_, Or.inl rfl, ?_, ?_, ?_, rfl, ?_⟩
  · simp [initialChain]
  · simp [initialChain]
  · simp [initialChain]
  · intro k hne
    exact absurd (getD_replicate_self n k (none : Settle E)) hne
  · intro k hne
    exact absurd (getD_replicate_self n k (none : Settle E)) hne
  · intro k habs
    rw [show (initialChain E n).absorbed = List.replicate n false from rfl,
      getD_replicate_self] at habs
    cases habs
  · intro k
    constructor
    · intro hmem
      exact absurd hmem (List.not_mem_nil k)
    · rintro ⟨-, hres, -⟩
      exact absurd (getD_replicate_self n k (none : Settle E)) hres

/-- Every reaction preserves the chain invariant. -/
theorem chainInv_step {E : Type} {n : Nat} {initOut : Option E}
    {opOut : Nat → Option E} {s s' : ChainState E}
    (inv : ChainInv n initOut opOut s)
    (hstep : Step n initOut opOut s s') :
    ChainInv n initOut opOut s' := by
  cases hstep with
  | settleInit h0 =>
      exact ⟨inv.lenR, inv.lenT, inv.lenA, Or.inr rfl, inv.tailC, inv.resC,
        inv.absC, inv.traceR, inv.traceM⟩
  | runOpOk k hk hg hr =>
      have hio : initOut = none := by
        rcases gate_mem inv k with h | h
        · rw [h] at hg; cases hg
        · rw [h] at hg; exact Option.some.inj hg
      have hklen : k < s.results.length := by rw [inv.lenR]; exact hk
      have hkm : k = s.trace.length := by
        have hnotin : k ∉ s.trace := by
          intro hmem
          exact ((inv.traceM k).mp hmem).2.1 hr
        have hkaux : k ≤ s.trace.length := by
          cases k with
          | zero => exact Nat.zero_le _
          | succ j =>
              have hjt : s.tails.getD j none ≠ none := by
                intro h0
                rw [show gate s (j + 1) = s.tails.getD j none from rfl, h0]
                  at hg
                cases hg
              have hjres := (inv.tailC j hjt).2.2 hio
              have hjlt := (inv.tailC j hjt).1
              have hjmem : j ∈ s.trace :=
                (inv.traceM j).mpr ⟨hjlt, hjres, hio⟩
              rw [inv.traceR, List.mem_range] at hjmem
              omega
        have hkaux2 : s.trace.length ≤ k := by
          by_contra hlt
          push_neg at hlt
          have : k ∈ s.trace := by
            rw [inv.traceR, List.mem_range]
            exact hlt
          exact hnotin this
        omega
      refine ⟨?_, inv.lenT, inv.lenA, inv.initC, ?_, ?_, inv.absC, ?_, ?_⟩
      · rw [List.length_set]; exact inv.lenR
      · intro q hq
        obtain ⟨hq1, hq2, hq3⟩ := inv.tailC q hq
        refine ⟨hq1, hq2, fun _ => ?_⟩
        by_cases hqk : q = k
        · subst hqk
          rw [getD_set_self _ _ _ _ hklen]
          exact Option.some_ne_none _
        · rw [getD_set_ne _ _ _ _ _ hqk]
          exact hq3 hio
      · intro q hq
        by_cases hqk : q = k
        · subst hqk
          rw [getD_set_self _ _ _ _ hklen]
          refine ⟨hk, ?_⟩
          rw [hio]
          rfl
        · rw [getD_set_ne _ _ _ _ _ hqk] at hq ⊢
          exact inv.resC q hq
      · show s.trace ++ [k] = List.range (s.trace ++ [k]).length
        rw [List.length_append, List.length_singleton, hkm, inv.traceR]
        rw [List.length_range, ← List.range_succ]
      · intro q
        show q ∈ s.trace ++ [k] ↔ _
        rw [List.mem_append, List.mem_singleton]
        constructor
        · rintro (hmem | hq)
          · obtain ⟨h1, h2, h3⟩ := (inv.traceM q).mp hmem
            refine ⟨h1, ?_, h3⟩
            by_cases hqk : q = k
            · subst hqk
              rw [getD_set_self _ _ _ _ hklen]
              exact Option.some_ne_none _
            · rw [getD_set_ne _ _ _ _ _ hqk]
              exact h2
          · subst hq
            refine ⟨hk, ?_, hio⟩
            rw [getD_set_self _ _ _ _ hklen]
            exact Option.some_ne_none _
        · rintro ⟨h1, h2, h3⟩
          by_cases hqk : q = k
          · exact Or.inr hqk
          · rw [getD_set_ne _ _ _ _ _ hqk] at h2
            exact Or.inl ((inv.traceM q).mpr ⟨h1, h2, h3⟩)
  | runOpErr k hk e hg hr =>
      have hio : initOut = some e := by
        rcases gate_mem inv k with h | h
        · rw [h] at hg; cases hg
        · rw [h] at hg; exact Option.some.inj hg
      have hklen : k < s.results.length := by rw [inv.lenR]; exact hk
      refine ⟨?_, inv.lenT, inv.lenA, inv.initC, ?_, ?_, inv.absC,
        inv.traceR, ?_⟩
      · rw [List.length_set]; exact inv.lenR
      · intro q hq
        obtain ⟨hq1, hq2, hq3⟩ := inv.tailC q hq
        refine ⟨hq1, hq2, fun hio2 => ?_⟩
        rw [hio2] at hio
        cases hio
      · intro q hq
        by_cases hqk : q = k
        · subst hqk
          rw [getD_set_self _ _ _ _ hklen]
          refine ⟨hk, ?_⟩
          rw [hio]
          rfl
        · rw [getD_set_ne _ _ _ _ _ hqk] at hq ⊢
          exact inv.resC q hq
      · intro q
        constructor
        · intro hmem
          have h3 := ((inv.traceM q).mp hmem).2.2
          rw [h3] at hio
          cases hio
        · rintro ⟨-, -, h3⟩
          rw [h3] at hio
          cases hio
  | settleTailOk k hk hg hr ht =>
      have hio : initOut = none := by
        rcases gate_mem inv k with h | h
        · rw [h] at hg; cases hg
        · rw [h] at hg; exact Option.some.inj hg
      have hklen : k < s.tails.length := by rw [inv.lenT]; exact hk
      refine ⟨inv.lenR, ?_, inv.lenA, inv.initC, ?_, inv.resC, ?_,
        inv.traceR, inv.traceM⟩
      · rw [List.length_set]; exact inv.lenT
      · intro q hq
        by_cases hqk : q = k
        · subst hqk
          rw [getD_set_self _ _ _ _ hklen]
          exact ⟨hk, by rw [hio], fun _ => hr⟩
        · rw [getD_set_ne _ _ _ _ _ hqk] at hq ⊢
          exact inv.tailC q hq
      · intro q habs
        obtain ⟨hq1, hq2⟩ := inv.absC q habs
        refine ⟨hq1, ?_⟩
        by_cases hqk : q = k
        · subst hqk
          rw [getD_set_self _ _ _ _ hklen]
          exact Option.some_ne_none _
        · rw [getD_set_ne _ _ _ _ _ hqk]
          exact hq2
  | settleTailErr k hk e hg ht =>
      have hio : initOut = some e := by
        rcases gate_mem inv k with h | h
        · rw [h] at hg; cases hg
        · rw [h] at hg; exact Option.some.inj hg
      have hklen : k < s.tails.length := by rw [inv.lenT]; exact hk
      refine ⟨inv.lenR, ?_, inv.lenA, inv.initC, ?_, inv.resC, ?_,
        inv.traceR, inv.traceM⟩
      · rw [List.length_set]; exact inv.lenT
      · intro q hq
        by_cases hqk : q = k
        · subst hqk
          rw [getD_set_self _ _ _ _ hklen]
          refine ⟨hk, by rw [hio], fun hio2 => ?_⟩
          rw [hio2] at hio
          cases hio
        · rw [getD_set_ne _ _ _ _ _ hqk] at hq ⊢
          exact inv.tailC q hq
      · intro q habs
        obtain ⟨hq1, hq2⟩ := inv.absC q habs
        refine ⟨hq1, ?_⟩
        by_cases hqk : q = k
        · subst hqk
          rw [getD_set_self _ _ _ _ hklen]
          exact Option.some_ne_none _
        · rw [getD_set_ne _ _ _ _ _ hqk]
          exact hq2
  | runCatch k hk e ht ha =>
      have hklen : k < s.absorbed.length := by rw [inv.lenA]; exact hk
      refine ⟨inv.lenR, inv.lenT, ?_, inv.initC, inv.tailC, inv.resC, ?_,
        inv.traceR, inv.traceM⟩
      · rw [List.length_set]; exact inv.lenA
      · intro q habs
        by_cases hqk : q = k
        · subst hqk
          rw [ht]
          exact ⟨hk, Option.some_ne_none _⟩
        · rw [getD_set_ne _ _ _ _ _ hqk] at habs
          exact inv.absC q habs

/-- The invariant holds in every reachable chain state. -/
theorem chainInv_reachable {E : Type} {n : Nat} {initOut : Option E}
    {opOut : Nat → Option E} {s : ChainState E}
    (h : Reachable n initOut opOut s) : ChainInv n initOut opOut s := by
  induction h with
  | refl => exact chainInv_initial n initOut opOut
  | tail _ hstep ih => exact chainInv_step ih hstep

/-- Progress: when no reaction can fire any more (the microtask queue
has drained), every promise in the chain has settled with its expected
outcome, and on an initialisation failure every attached `catch`
reaction has consumed its rejection. -/
theorem settled_of_noStep {E : Type} {n : Nat} {initOut : Option E}
    {opOut : Nat → Option E} {s : ChainState E}
    (inv : ChainInv n initOut opOut s)
    (hq : ∀ s', ¬ Step n initOut opOut s s') :
    s.initSt = some initOut ∧
    (∀ k, k ≤ n → gate s k = some initOut) ∧
    (∀ k, k < n →
      s.results.getD k none = some (expectedOutcome initOut opOut k)) ∧
    (∀ k, k < n → s.tails.getD k none = some initOut) ∧
    (∀ k e, initOut = some e → k < n →
      s.absorbed.getD k false = true) := by
  have hinit : s.initSt = some initOut := by
    rcases inv.initC with h | h
    · exact absurd (Step.settleInit s h) (hq _)
    · exact h
  have hgate : ∀ k, k ≤ n → gate s k = some initOut := by
    intro k
    induction k with
    | zero => intro _; exact hinit
    | succ j ih =>
        intro hjn
        have hj : j < n := by omega
        have hgj := ih (by omega)
        have htj : s.tails.getD j none ≠ none := by
          intro ht
          cases hio : initOut with
          | none =>
              rw [hio] at hgj
              by_cases hres : s.results.getD j none = none
              · exact hq _ (Step.runOpOk s j hj hgj hres)
              · exact hq _ (Step.settleTailOk s j hj hgj hres ht)
          | some e =>
              rw [hio] at hgj
              exact hq _ (Step.settleTailErr s j hj e hgj ht)
        show s.tails.getD j none = some initOut
        exact (inv.tailC j htj).2.1
  have hres : ∀ k, k < n →
      s.results.getD k none = some (expectedOutcome initOut opOut k) := by
    intro k hk
    have hgk := hgate k (by omega)
    have hne : s.results.getD k none ≠ none := by
      intro h0
      cases hio : initOut with
      | none =>
          rw [hio] at hgk
          exact hq _ (Step.runOpOk s k hk hgk h0)
      | some e =>
          rw [hio] at hgk
          exact hq _ (Step.runOpErr s k hk e hgk h0)
    exact (inv.resC k hne).2
  have htails : ∀ k, k < n → s.tails.getD k none = some initOut :=
    fun k hk => hgate (k + 1) (by omega)
  refine ⟨hinit, hgate, hres, htails, ?_⟩
  intro k e hio hk
  have ht := htails k hk
  rw [hio] at ht
  by_cases ha : s.absorbed.getD k false = false
  · exact absurd (Step.runCatch s k hk e ht ha) (hq _)
  · cases hab : s.absorbed.getD k false
    · exact absurd hab ha
    · rfl

/-- A chain state in which every promise has settled and every rejected
`queueUpdatePromise` has been absorbed admits no further reaction. -/
theorem noStep_of_settled {E : Type} (n : Nat) (initOut : Option E)
    (opOut : Nat → Option E) (s : ChainState E)
    (h1 : s.initSt ≠ none)
    (h2 : ∀ k, k < n → s.results.getD k none ≠ none)
    (h3 : ∀ k, k < n → s.tails.getD k none ≠ none)
    (h4 : ∀ k, k < n → tailErrUnabsorbed s k = false) :
    ∀ s', ¬ Step n initOut opOut s s' := by
  intro s' hs
  cases hs with
  | settleInit h0 => exact h1 h0
  | runOpOk k hk hg hr => exact h2 k hk hr
  | runOpErr k hk e hg hr => exact h2 k hk hr
  | settleTailOk k hk hg hr ht => exact h3 k hk ht
  | settleTailErr k hk e hg ht => exact h3 k hk ht
  | runCatch k hk e ht ha =>
      have h5 := h4 k hk
      unfold tailErrUnabsorbed at h5
      rw [ht, ha] at h5
      simp at h5

end Queue

/-- C1: operations submitted to one session execute against the engine
strictly one-at-a-time in submission order, even when no caller awaits:
in every state the promise chain can reach, the engine-execution trace
is exactly `0, 1, 2, …` (a prefix of the submission order with no gap
and no reordering), and whenever operation `k+1` has begun, operation
`k`'s outcome (success or failure) is already settled. -/
theorem queue_operations_execute_in_submission_order {E : Type} (n : Nat)
    (initOut : Option E) (opOut : Nat → Option E) (s : Queue.ChainState E)
    (h : Queue.Reachable n initOut opOut s) :
    s.trace = List.range s.trace.length ∧
    (∀ k, k + 1 ∈ s.trace → s.results.getD k none ≠ none) := by
  have inv := Queue.chainInv_reachable h
  refine ⟨inv.traceR, ?_⟩
  intro k hmem
  have hks : k ∈ s.trace := by
    rw [inv.traceR, List.mem_range] at hmem ⊢
    omega
  exact ((inv.traceM k).mp hks).2.1

theorem twoOpsMid_reachable :
    Queue.Reachable 2 (none : Option Nat) (fun _ => none)
      Queue.twoOpsMid := by
  refine Relation.ReflTransGen.head (Queue.Step.settleInit _ rfl) ?_
  refine Relation.ReflTransGen.head
    (Queue.Step.runOpOk _ 0 (by decide) rfl rfl) ?_
  refine Relation.ReflTransGen.head
    (Queue.Step.settleTailOk _ 0 (by decide) rfl (by decide) rfl) ?_
  refine Relation.ReflTransGen.head
    (Queue.Step.runOpOk _ 1 (by decide) rfl rfl) ?_
  exact Relation.ReflTransGen.refl

/-- Witness for C1 at a concrete mid-run chain state of two fire-and-
forget submissions. -/
theorem queue_operations_execute_in_submission_order_witness :
    Queue.Reachable 2 (none : Option Nat) (fun _ => none)
      Queue.twoOpsMid ∧
    (Queue.twoOpsMid.trace = List.range Queue.twoOpsMid.trace.length ∧
      ∀ k, k + 1 ∈ Queue.twoOpsMid.trace →
        Queue.twoOpsMid.results.getD k none ≠ none) :=
  ⟨twoOpsMid_reachable,
    queue_operations_execute_in_submission_order 2 none (fun _ => none)
      Queue.twoOpsMid twoOpsMid_reachable⟩

/-- C4: a failing operation is observed only by its own caller and does
not break the pipeline: once the microtask queue drains, every
submitted operation has executed (trace `0 … n-1`) with its own
outcome delivered on its `resultPromise` — later operations run and
can succeed regardless of earlier failures — and every internal
`queueUpdatePromise` has fulfilled (with the engine, never with an
operation's rejection), so no operation failure escapes into the
pipeline as an unhandled rejection. -/
theorem queue_failure_isolation {E : Type} (n : Nat)
    (opOut : Nat → Option E) (s : Queue.ChainState E)
    (h : Queue.Reachable n none opOut s)
    (hq : ∀ s', ¬ Queue.Step n none opOut s s') :
    s.trace = List.range n ∧
    (∀ k, k < n → s.results.getD k none = some (opOut k) ∧
      s.tails.getD k none = some none) := by
  have inv := Queue.chainInv_reachable h
  obtain ⟨hinit, hgate, hres, htails, -⟩ := Queue.settled_of_noStep inv hq
  constructor
  · have h1 : ∀ k, k ∈ s.trace ↔ k < n := by
      intro k
      rw [inv.traceM k]
      constructor
      · rintro ⟨h1, -, -⟩; exact h1
      · intro hk
        refine ⟨hk, ?_, rfl⟩
        rw [hres k hk]
        exact Option.some_ne_none _
    have hmled : s.trace.length ≤ n := by
      by_contra hlt
      push_neg at hlt
      have hn : n ∈ s.trace := by
        rw [inv.traceR, List.mem_range]
        omega
      have := (h1 n).mp hn
      omega
    have hnle : n ≤ s.trace.length := by
      by_contra hlt
      push_neg at hlt
      have hmem : s.trace.length ∈ s.trace := (h1 _).mpr hlt
      rw [inv.traceR, List.mem_range, List.length_range] at hmem
      omega
    rw [inv.traceR]
    rw [show s.trace.length = n by omega]
  · intro k hk
    exact ⟨hres k hk, htails k hk⟩

theorem twoOpsDone_reachable :
    Queue.Reachable 2 (none : Option Nat) Queue.firstOpFails
      Queue.twoOpsDone := by
  refine Relation.ReflTransGen.head (Queue.Step.settleInit _ rfl) ?_
  refine Relation.ReflTransGen.head
    (Queue.Step.runOpOk _ 0 (by decide) rfl rfl) ?_
  refine Relation.ReflTransGen.head
    (Queue.Step.settleTailOk _ 0 (by decide) rfl (by decide) rfl) ?_
  refine Relation.ReflTransGen.head
    (Queue.Step.runOpOk _ 1 (by decide) rfl rfl) ?_
  refine Relation.ReflTransGen.head
    (Queue.Step.settleTailOk _ 1 (by decide) rfl (by decide) rfl) ?_
  exact Relation.ReflTransGen.refl

theorem twoOpsDone_noStep :
    ∀ s', ¬ Queue.Step 2 (none : Option Nat) Queue.firstOpFails
      Queue.twoOpsDone s' :=
  Queue.noStep_of_settled 2 none Queue.firstOpFails Queue.twoOpsDone
    (by decide) (by decide) (by decide) (by decide)

/-- Witness for C4 at the drained chain of two submissions whose first
operation failed with error `7` and whose second succeeded. -/
theorem queue_failure_isolation_witness :
    Queue.Reachable 2 (none : Option Nat) Queue.firstOpFails
      Queue.twoOpsDone ∧
    (∀ s', ¬ Queue.Step 2 (none : Option Nat) Queue.firstOpFails
      Queue.twoOpsDone s') ∧
    (Queue.twoOpsDone.trace = List.range 2 ∧
      ∀ k, k < 2 →
        Queue.twoOpsDone.results.getD k none =
          some (Queue.firstOpFails k) ∧
        Queue.twoOpsDone.tails.getD k none = some none) :=
  ⟨twoOpsDone_reachable, twoOpsDone_noStep,
    queue_failure_isolation 2 Queue.firstOpFails Queue.twoOpsDone
      twoOpsDone_reachable twoOpsDone_noStep⟩

/-- C8: when engine initialisation (`createDb`, the head of the
pipeline) fails with `e`, then once the microtask queue drains no
operation has ever reached the engine, every submitted operation's
promise has rejected with that same error `e`, and every internal
rejection has been consumed by the `catch` reaction `#enqueue`
attaches — the initialisation failure is never left unobserved. -/
theorem queue_init_failure_propagates {E : Type} (n : Nat) (e : E)
    (opOut : Nat → Option E) (s : Queue.ChainState E)
    (h : Queue.Reachable n (some e) opOut s)
    (hq : ∀ s', ¬ Queue.Step n (some e) opOut s s') :
    s.trace = [] ∧
    (∀ k, k < n → s.results.getD k none = some (some e) ∧
      s.absorbed.getD k false = true) := by
  have inv := Queue.chainInv_reachable h
  obtain ⟨-, -, hres, -, habs⟩ := Queue.settled_of_noStep inv hq
  constructor
  · rw [List.eq_nil_iff_forall_not_mem]
    intro k hmem
    have h3 := ((inv.traceM k).mp hmem).2.2
    cases h3
  · intro k hk
    exact ⟨hres k hk, habs k e rfl hk⟩

theorem initFailDone_reachable :
    Queue.Reachable 1 (some 5 : Option Nat) (fun _ => none)
      Queue.initFailDone := by
  refine Relation.ReflTransGen.head (Queue.Step.settleInit _ rfl) ?_
  refine Relation.ReflTransGen.head
    (Queue.Step.runOpErr _ 0 (by decide) 5 rfl rfl) ?_
  refine Relation.ReflTransGen.head
    (Queue.Step.settleTailErr _ 0 (by decide) 5 rfl rfl) ?_
  refine Relation.ReflTransGen.head
    (Queue.Step.runCatch _ 0 (by decide) 5 rfl rfl) ?_
  exact Relation.ReflTransGen.refl

theorem initFailDone_noStep :
    ∀ s', ¬ Queue.Step 1 (some 5 : Option Nat) (fun _ => none)
      Queue.initFailDone s' :=
  Queue.noStep_of_settled 1 (some 5) (fun _ => none) Queue.initFailDone
    (by decide) (by decide) (by decide) (by decide)

/-- Witness for C8 at the drained chain of one submission after
`createDb` rejected with error `5`. -/
theorem queue_init_failure_propagates_witness :
    Queue.Reachable 1 (some 5 : Option Nat) (fun _ => none)
      Queue.initFailDone ∧
    (∀ s', ¬ Queue.Step 1 (some 5 : Option Nat) (fun _ => none)
      Queue.initFailDone s') ∧
    (Queue.initFailDone.trace = [] ∧
      ∀ k, k < 1 →
        Queue.initFailDone.results.getD k none = some (some 5) ∧
        Queue.initFailDone.absorbed.getD k false = true) :=
  ⟨initFailDone_reachable, initFailDone_noStep,
    queue_init_failure_propagates 1 5 (fun _ => none) Queue.initFailDone
      initFailDone_reachable initFailDone_noStep⟩

end IsoSqlite
